import Mathlib

/-!
Verification of the crawl-and-analyze core of the SEO backend.

Strings of the JavaScript source are modelled as `List Char`.  External
collaborators (HTTP fetching, DOM parsing, URL resolution, the OpenAI call)
are modelled as inputs: a crawl runs against a `Web`, a function from a URL
to an optional `FetchResult` carrying the data the DOM layer would deliver
(`none` models a network/HTTP failure, i.e. a thrown fetch error).
-/

set_option maxRecDepth 4096

abbrev Str := List Char

/-- JavaScript `s.split(/X+/)` where `X` is a character class: splits on
maximal runs of separator characters; a leading or trailing run produces an
empty fragment, and the empty string yields one empty fragment. -/
def splitRuns (p : Char → Bool) (s : Str) : List Str :=
  match s with
  | [] => [[]]
  | c :: rest =>
    if p c then
      [] :: splitRuns p (rest.dropWhile p)
    else
      match splitRuns p rest with
      | [] => [[c]]
      | t :: ts => (c :: t) :: ts
termination_by s.length
decreasing_by
  · simp only [List.length_cons]
    have := (List.dropWhile_sublist (l := rest) p).length_le
    omega
  · simp

/-- JavaScript `s.split(c)` on a single separator character: adjacent
separators yield empty fragments. -/
def splitChar (sep : Char) (s : Str) : List Str :=
  match s with
  | [] => [[]]
  | c :: rest =>
    match splitChar sep rest with
    | [] => if c = sep then [[], []] else [[c]]
    | t :: ts => if c = sep then [] :: t :: ts else (c :: t) :: ts

/-- JavaScript `[...new Set(xs)]`: deduplication keeping the first
occurrence of each element, preserving order. -/
def dedupFirst {α : Type} [DecidableEq α] (l : List α) : List α :=
  match l with
  | [] => []
  | a :: t => a :: dedupFirst (t.filter (fun x => x ≠ a))
termination_by l.length
decreasing_by
  have := List.length_filter_le (fun x => x ≠ a) t
  simp only [List.length_cons]
  omega

theorem mem_dedupFirst {α : Type} [DecidableEq α] (l : List α) (x : α) :
    x ∈ dedupFirst l ↔ x ∈ l := by
  induction l using dedupFirst.induct with
  | case1 => simp [dedupFirst]
  | case2 a t ih =>
    rw [dedupFirst]
    simp only [List.mem_cons, ih, List.mem_filter, decide_eq_true_eq]
    constructor
    · rintro (h | ⟨h, _⟩) <;> simp [h]
    · intro h
      rcases h with h | h
      · exact Or.inl h
      · by_cases hx : x = a
        · exact Or.inl hx
        · exact Or.inr ⟨h, hx⟩

/-- Count of non-overlapping, leftmost matches of a literal pattern in a
string, matching the behaviour of a JavaScript global regex built from a
pattern with no metacharacters (an empty pattern matches once at every
position including the end of the string). -/
def countMatches (pat : Str) (s : Str) : Nat :=
  match pat, s with
  | [], s => s.length + 1
  | _ :: _, [] => 0
  | p :: ps, c :: rest =>
    if (p :: ps).isPrefixOf (c :: rest) then
      1 + countMatches (p :: ps) (rest.drop ps.length)
    else
      countMatches (p :: ps) rest
termination_by s.length
decreasing_by
  · simp only [List.length_drop, List.length_cons]
    omega
  · simp

/-- JavaScript `Math.round(x * 100) / 100` (round half towards positive
infinity), on exact rationals. -/
def jsRound2 (x : ℚ) : ℚ := (⌊x * 100 + 1 / 2⌋ : ℚ) / 100

/-- Number of whitespace-separated non-empty tokens, as in
`text.split(/\s+/).filter(w => w.length > 0).length`. -/
def wordCountOf (s : Str) : Nat :=
  ((splitRuns Char.isWhitespace s).filter (fun w => w ≠ [])).length

/-!
A model of the fragment of JavaScript regular expressions reachable from
`analyzeKeywordDensity`, which compiles the lower-cased keyword directly as
a pattern (`new RegExp(keywordLower, 'gi')`).  The model covers literal
characters, `.`, alternation `|`, grouping `(...)` and the quantifiers
`*`, `+`, `?`; it reports a compile failure (`none`) for syntactically
invalid patterns (a quantifier with nothing to repeat, an unbalanced
parenthesis).  The characters `\ ^ $ [ ] { }` are outside the modelled
fragment and are conservatively rejected by the parser; no theorem below
evaluates the model on them.
-/

/-- Characters that carry a meaning inside a JavaScript regular
expression pattern. -/
def regexMeta (c : Char) : Bool :=
  c ∈ ['\\', '^', '$', '.', '*', '+', '?', '(', ')', '[', ']', '{', '}', '|']

/-- Abstract syntax of the modelled regular-expression fragment. -/
inductive RE : Type
  | eps : RE
  | ch (c : Char) : RE
  | dot : RE
  | seq (a b : RE) : RE
  | alt (a b : RE) : RE
  | star (a : RE) : RE
deriving Repr, DecidableEq

/-- Apply an optional postfix quantifier to a parsed atom: `+` desugars to
`a` followed by `a*` and `?` to `a | eps`. -/
def applyQuant (a : RE) (rest : Str) : RE × Str :=
  match rest with
  | [] => (a, [])
  | d :: t =>
    if d = '*' then (.star a, t)
    else if d = '+' then (.seq a (.star a), t)
    else if d = '?' then (.alt a .eps, t)
    else (a, d :: t)

mutual

/-- Parse an alternation `seq ('|' seq)*`; the fuel argument bounds the
recursion depth and is chosen large enough at the top entry point. -/
def parseAlt : Nat → Str → Option (RE × Str)
  | 0, _ => none
  | fuel + 1, s =>
    match parseSeq fuel s with
    | none => none
    | some (r, rest) =>
      match rest with
      | '|' :: rest2 =>
        match parseAlt fuel rest2 with
        | none => none
        | some (r2, rest3) => some (.alt r r2, rest3)
      | _ => some (r, rest)

/-- Parse a possibly empty sequence of quantified atoms. -/
def parseSeq : Nat → Str → Option (RE × Str)
  | 0, _ => none
  | fuel + 1, s =>
    match parseAtom fuel s with
    | none => some (.eps, s)
    | some (a, rest) =>
      let q := applyQuant a rest
      match parseSeq fuel q.2 with
      | none => none
      | some (b, rest4) => some (.seq q.1 b, rest4)

/-- Parse a single atom: a literal character, `.` or a parenthesised
group. -/
def parseAtom : Nat → Str → Option (RE × Str)
  | 0, _ => none
  | fuel + 1, s =>
    match s with
    | [] => none
    | c :: rest =>
      if c = '(' then
        match parseAlt fuel rest with
        | none => none
        | some (r, rest2) =>
          match rest2 with
          | ')' :: rest3 => some (r, rest3)
          | _ => none
      else if c = '.' then some (.dot, rest)
      else if regexMeta c then none
      else some (.ch c, rest)

end

/-- Compile a pattern string, failing on invalid syntax.  The fuel bound
suffices for every pattern the proofs below evaluate. -/
def regexParse (pat : Str) : Option RE :=
  match parseAlt (3 * pat.length + 3) pat with
  | some (r, []) => some r
  | _ => none

/-- Lengths of the matches of `r` at the start of `s`, in the backtracking
engine's preference order (alternatives left to right, quantifiers
greedy); the head, when present, is the match the JavaScript engine
reports.  Zero-length iterations of `*` are skipped, as in JavaScript's
empty-loop check. -/
def matchPref : RE → Str → List Nat
  | .eps, _ => [0]
  | .ch _, [] => []
  | .ch c, d :: _ => if d = c then [1] else []
  | .dot, [] => []
  | .dot, _ :: _ => [1]
  | .alt a b, s => matchPref a s ++ matchPref b s
  | .seq a b, s =>
    (matchPref a s).flatMap (fun n => (matchPref b (s.drop n)).map (fun m => n + m))
  | .star _, [] => [0]
  | .star a, c :: rest =>
    ((matchPref a (c :: rest)).filter (fun n => n ≠ 0)).flatMap
      (fun n =>
        (matchPref (.star a) ((c :: rest).drop (max n 1))).map
          (fun m => max n 1 + m)) ++ [0]
termination_by r s => (sizeOf r, s.length)
decreasing_by
  all_goals first
    | (apply Prod.Lex.right; simp only [List.length_drop, List.length_cons]; omega)
    | (apply Prod.Lex.left <;> simp <;> omega)

/-- Number of matches a global JavaScript regex reports on `s`: scan left
to right, take the engine's first match at the earliest position where one
exists, and resume after it (advancing one position after an empty
match). -/
def scanCount (r : RE) (s : Str) : Nat :=
  match s with
  | [] => if (matchPref r []).isEmpty then 0 else 1
  | c :: rest =>
    match (matchPref r (c :: rest)).head? with
    | none => scanCount r rest
    | some 0 => 1 + scanCount r rest
    | some (n + 1) => 1 + scanCount r (rest.drop n)
termination_by s.length
decreasing_by
  all_goals (try simp only [List.length_drop, List.length_cons])
  all_goals omega

/-- Model of `(s.match(new RegExp(pat, 'gi')) || []).length` for
already-lower-cased `pat` and `s`: `none` models the `SyntaxError` thrown
by `new RegExp` on an invalid pattern. -/
def jsMatchCount (pat s : Str) : Option Nat :=
  (regexParse pat).map (fun r => scanCount r s)

/-!
The crawler of `EnhancedAnalyzer` (src/unnamed/part_001).  The HTTP and
DOM collaborators are abstracted into a `Web`: for each URL it either
fails (`none`, modelling a thrown fetch error) or yields the raw page
data the DOM layer would deliver — title, meta description, the visible
text of the selected content elements, and the page's anchor `href`s
already resolved against the page's own URL (`none` for an href that
`new URL` rejects).
-/

structure FetchResult where
  title : Str
  description : Str
  bodyText : Str
  anchors : List (Option Str)

abbrev Web := Str → Option FetchResult

/-- The whitespace-collapsing part of `extractContent`: replace every
maximal whitespace run by a single space (`.replace(/\s+/g, ' ')`). -/
def collapseWs : Str → Str
  | [] => []
  | c :: rest =>
    if c.isWhitespace then ' ' :: collapseWs (rest.dropWhile Char.isWhitespace)
    else c :: collapseWs rest
termination_by s => s.length
decreasing_by
  · simp only [List.length_cons]
    have := (List.dropWhile_sublist (l := rest) Char.isWhitespace).length_le
    omega
  · simp

/-- JavaScript `String.prototype.trim`. -/
def trimWs (s : Str) : Str :=
  ((s.dropWhile Char.isWhitespace).reverse.dropWhile Char.isWhitespace).reverse

/-- `EnhancedAnalyzer.extractContent`: collapse whitespace, trim, truncate
to 10000 characters.  The removal of script/style/nav elements and the
CSS selection happen in the DOM collaborator and are reflected in the
`bodyText` the `Web` provides. -/
def extractContent (bodyText : Str) : Str :=
  (trimWs (collapseWs bodyText)).take 10000

/-- One crawled page, with the fields the analysis functions consume. -/
structure PageRecord where
  url : Str
  title : Str
  description : Str
  content : Str
  links : List Str
  wordCount : Nat
deriving Repr, DecidableEq

/-- `EnhancedAnalyzer.extractLinks`: keep the resolvable hrefs whose
absolute form starts with the base URL (the current page's URL at both
call sites), deduplicated via `[...new Set(links)]`. -/
def extractLinks (anchors : List (Option Str)) (baseUrl : Str) : List Str :=
  dedupFirst ((anchors.filterMap id).filter (fun l => baseUrl.isPrefixOf l))

/-- `EnhancedAnalyzer.crawlPage`: fetch one URL and build its
`PageRecord`; `none` models the rethrown fetch failure.  `wordCount` is
`getWordCount`, i.e. the token count of the extracted content. -/
def crawlPage (web : Web) (url : Str) : Option PageRecord :=
  (web url).map (fun r =>
    { url := url
      title := r.title
      description := r.description
      content := extractContent r.bodyText
      links := extractLinks r.anchors url
      wordCount := wordCountOf (extractContent r.bodyText) })

/-- The `while` loop of `EnhancedAnalyzer.crawlWebsite`.  Besides the
collected pages it returns the trace of URLs passed to `crawlPage`
(instrumenting the fetches, which the source performs but does not
record).  The source re-extracts the links from `page.rawHtml` against
`currentUrl` before enqueueing; that recomputation equals `page.links`,
which this model reuses. -/
def crawlLoop (web : Web) (maxPages : Nat) (toVisit : List Str)
    (visited : List Str) (pages : List PageRecord) (trace : List Str) :
    List PageRecord × List Str :=
  if h : pages.length < maxPages then
    match toVisit with
    | [] => (pages, trace)
    | currentUrl :: rest =>
      if visited.contains currentUrl then
        crawlLoop web maxPages rest visited pages trace
      else
        match crawlPage web currentUrl with
        | none => crawlLoop web maxPages rest visited pages (trace ++ [currentUrl])
        | some page =>
          crawlLoop web maxPages
            (rest ++ page.links.filter (fun l => !(visited ++ [currentUrl]).contains l))
            (visited ++ [currentUrl]) (pages ++ [page]) (trace ++ [currentUrl])
  else (pages, trace)
termination_by (maxPages - pages.length, toVisit.length)
decreasing_by
  all_goals first
    | (apply Prod.Lex.right; simp)
    | (apply Prod.Lex.left; simp only [List.length_append, List.length_cons]; omega)

/-- `EnhancedAnalyzer.crawlWebsite url`: the pages collected starting from
the seed (`this.maxPages` is 5 in the source; it is a parameter here). -/
def crawlWebsite (web : Web) (maxPages : Nat) (url : Str) : List PageRecord :=
  (crawlLoop web maxPages [url] [] [] []).1

/-- The URLs passed to `crawlPage` during `crawlWebsite url`, in call
order (both failing and succeeding fetches). -/
def crawlFetches (web : Web) (maxPages : Nat) (url : Str) : List Str :=
  (crawlLoop web maxPages [url] [] [] []).2

theorem crawlPage_url {web : Web} {u : Str} {page : PageRecord}
    (h : crawlPage web u = some page) : page.url = u := by
  unfold crawlPage at h
  cases hw : web u with
  | none => rw [hw] at h; simp at h
  | some r => rw [hw] at h; simp at h; rw [← h]

theorem crawlPage_links {web : Web} {u : Str} {page : PageRecord}
    (h : crawlPage web u = some page) :
    ∃ r, web u = some r ∧ page.links = extractLinks r.anchors u := by
  unfold crawlPage at h
  cases hw : web u with
  | none => rw [hw] at h; simp at h
  | some r => rw [hw] at h; simp at h; exact ⟨r, rfl, by rw [← h]⟩

theorem extractLinks_mem_pre {anchors : List (Option Str)} {base l : Str}
    (h : l ∈ extractLinks anchors base) : base <+: l := by
  unfold extractLinks at h
  rw [mem_dedupFirst] at h
  rw [List.mem_filter] at h
  exact List.isPrefixOf_iff_prefix.mp h.2

/-- Loop invariant behind C1: collected pages never exceed the cap and
their URLs, all recorded in `visited`, stay pairwise distinct. -/
theorem crawlLoop_pages_inv (web : Web) (maxPages : Nat) :
    ∀ (toVisit visited : List Str) (pages : List PageRecord) (trace : List Str),
    (∀ p ∈ pages, p.url ∈ visited) →
    (pages.map PageRecord.url).Nodup →
    pages.length ≤ maxPages →
    ((crawlLoop web maxPages toVisit visited pages trace).1.length ≤ maxPages ∧
      ((crawlLoop web maxPages toVisit visited pages trace).1.map PageRecord.url).Nodup) := by
  intro toVisit visited pages trace
  induction toVisit, visited, pages, trace using crawlLoop.induct web maxPages with
  | case1 visited pages trace hlt =>
    intro _ h2 h3
    rw [crawlLoop]
    simp only [dif_pos hlt]
    exact ⟨h3, h2⟩
  | case2 visited pages trace hlt t ts hvis ih =>
    intro h1 h2 h3
    rw [crawlLoop]
    simp only [dif_pos hlt, hvis, if_pos]
    exact ih h1 h2 h3
  | case3 visited pages trace hlt t ts hvis hfail ih =>
    intro h1 h2 h3
    rw [crawlLoop]
    simp only [dif_pos hlt, hvis, Bool.false_eq_true, if_false, hfail]
    exact ih h1 h2 h3
  | case4 visited pages trace hlt t ts hvis page hpage ih =>
    intro h1 h2 h3
    rw [crawlLoop]
    simp only [dif_pos hlt, hvis, Bool.false_eq_true, if_false, hpage]
    apply ih
    · intro p hp
      rw [List.mem_append] at hp
      rcases hp with hp | hp
      · exact List.mem_append_left _ (h1 p hp)
      · simp at hp
        rw [hp, crawlPage_url hpage]
        simp
    · have hturl : page.url = t := crawlPage_url hpage
      have htnot : t ∉ pages.map PageRecord.url := by
        intro hmem
        rw [List.mem_map] at hmem
        obtain ⟨p, hp, hpu⟩ := hmem
        have := h1 p hp
        rw [hpu] at this
        exact hvis (List.elem_eq_true_of_mem this)
      simp only [List.map_append, List.map_cons, List.map_nil]
      rw [List.nodup_append]
      refine ⟨h2, by simp, ?_⟩
      intro x hx
      simp only [List.mem_singleton, hturl]
      intro hxt
      rw [hxt] at hx
      exact htnot hx
    · simp only [List.length_append, List.length_cons, List.length_nil]
      omega
  | case5 toVisit visited pages trace hge =>
    intro _ h2 h3
    rw [crawlLoop.eq_def]
    simp only [dif_neg hge]
    exact ⟨h3, h2⟩

/-- C1: for every seed URL and page cap, the crawl returns at most
`maxPages` records and no two records share a URL. -/
theorem crawlWebsite_length_le_nodup (web : Web) (maxPages : Nat) (url : Str) :
    (crawlWebsite web maxPages url).length ≤ maxPages ∧
      ((crawlWebsite web maxPages url).map PageRecord.url).Nodup := by
  unfold crawlWebsite
  exact crawlLoop_pages_inv web maxPages [url] [] [] [] (by simp) (by simp) (by simp)

/-- Loop invariant behind C3: every frontier URL extends the seed, so
every link of every collected record does too. -/
theorem crawlLoop_links_inv (web : Web) (maxPages : Nat) (seed : Str) :
    ∀ (toVisit visited : List Str) (pages : List PageRecord) (trace : List Str),
    (∀ u ∈ toVisit, seed <+: u) →
    (∀ p ∈ pages, ∀ l ∈ p.links, seed <+: l) →
    ∀ p ∈ (crawlLoop web maxPages toVisit visited pages trace).1,
      ∀ l ∈ p.links, seed <+: l := by
  intro toVisit visited pages trace
  induction toVisit, visited, pages, trace using crawlLoop.induct web maxPages with
  | case1 visited pages trace hlt =>
    intro _ h2
    rw [crawlLoop]
    simp only [dif_pos hlt]
    exact h2
  | case2 visited pages trace hlt t ts hvis ih =>
    intro h1 h2
    rw [crawlLoop]
    simp only [dif_pos hlt, hvis, if_pos]
    exact ih (fun u hu => h1 u (List.mem_cons_of_mem t hu)) h2
  | case3 visited pages trace hlt t ts hvis hfail ih =>
    intro h1 h2
    rw [crawlLoop]
    simp only [dif_pos hlt, hvis, Bool.false_eq_true, if_false, hfail]
    exact ih (fun u hu => h1 u (List.mem_cons_of_mem t hu)) h2
  | case4 visited pages trace hlt t ts hvis page hpage ih =>
    intro h1 h2
    rw [crawlLoop]
    simp only [dif_pos hlt, hvis, Bool.false_eq_true, if_false, hpage]
    have hseedt : seed <+: t := h1 t (List.mem_cons_self t ts)
    have hlinks : ∀ l ∈ page.links, seed <+: l := by
      obtain ⟨r, _, hl⟩ := crawlPage_links hpage
      intro l hlm
      rw [hl] at hlm
      exact hseedt.trans (extractLinks_mem_pre hlm)
    apply ih
    · intro u hu
      rw [List.mem_append] at hu
      rcases hu with hu | hu
      · exact h1 u (List.mem_cons_of_mem t hu)
      · exact hlinks u (List.mem_of_mem_filter hu)
    · intro p hp
      rw [List.mem_append] at hp
      rcases hp with hp | hp
      · exact h2 p hp
      · simp at hp
        rw [hp]
        exact hlinks
  | case5 toVisit visited pages trace hge =>
    intro _ h2
    rw [crawlLoop.eq_def]
    simp only [dif_neg hge]
    exact h2

/-- C3: every link of every record of a crawl from `seed` has the seed URL
as a prefix, hence also any prefix of the seed — in particular the seed's
origin — even though `extractLinks` prefix-matches against the current
page's URL rather than the seed. -/
theorem crawlWebsite_links_origin (web : Web) (maxPages : Nat)
    (seed origin : Str) (horigin : origin <+: seed) :
    ∀ p ∈ crawlWebsite web maxPages seed, ∀ l ∈ p.links, origin <+: l := by
  intro p hp l hl
  have hseed : seed <+: l := by
    apply crawlLoop_links_inv web maxPages seed [seed] [] [] []
      (by intro u hu; simp at hu; rw [hu]) (by simp) p _ l hl
    exact hp
  exact horigin.trans hseed

/-- URLs of a three-page site used by concrete instances below. -/
def urlA : Str := "a".data

/-- Second URL of the concrete site. -/
def urlAA : Str := "aa".data

/-- Third URL of the concrete site; its fetch always fails. -/
def urlAAB : Str := "aab".data

/-- A concrete web: the seed links to `aa` and `aab`; `aa` links to
`aab`; fetching `aab` fails.  The failed `aab` is rediscovered on `aa`
after its first failed fetch. -/
def retryWeb : Web := fun u =>
  if u = urlA then
    some { title := [], description := [], bodyText := [],
           anchors := [some urlAA, some urlAAB] }
  else if u = urlAA then
    some { title := [], description := [], bodyText := [],
           anchors := [some urlAAB] }
  else none

/-- C2 counterexample: on `retryWeb` the URL `aab`, whose fetch fails and
which is rediscovered on page `aa`, is passed to `crawlPage` twice in a
single `crawlWebsite` run — refuting "every distinct URL is fetched at
most once per crawl". -/
theorem crawl_refetch_after_failure_cex :
    (crawlFetches retryWeb 5 urlA).count urlAAB = 2 := by
  have : crawlFetches retryWeb 5 urlA = [urlA, urlAA, urlAAB, urlAAB] := by
    simp [crawlFetches, crawlLoop, crawlPage, retryWeb, extractLinks, dedupFirst,
      urlA, urlAA, urlAAB]
  rw [this]
  decide

/-- Loop invariant behind the amended C2: a URL whose fetch succeeds is
never fetched again once it is in `visited`, so it is fetched at most once
in total. -/
theorem crawlLoop_count_inv (web : Web) (maxPages : Nat) (u : Str)
    (hu : (web u).isSome) :
    ∀ (toVisit visited : List Str) (pages : List PageRecord) (trace : List Str),
    ((u ∈ visited →
        (crawlLoop web maxPages toVisit visited pages trace).2.count u =
          trace.count u) ∧
      (crawlLoop web maxPages toVisit visited pages trace).2.count u ≤
        trace.count u + (if u ∈ visited then 0 else 1)) := by
  intro toVisit visited pages trace
  induction toVisit, visited, pages, trace using crawlLoop.induct web maxPages with
  | case1 visited pages trace hlt =>
    rw [crawlLoop]
    simp only [dif_pos hlt]
    exact ⟨fun _ => trivial, Nat.le_add_right _ _⟩
  | case2 visited pages trace hlt t ts hvis ih =>
    rw [crawlLoop]
    simp only [dif_pos hlt, hvis, if_pos]
    exact ih
  | case3 visited pages trace hlt t ts hvis hfail ih =>
    rw [crawlLoop]
    simp only [dif_pos hlt, hvis, Bool.false_eq_true, if_false, hfail]
    have htu : t ≠ u := by
      intro he
      rw [he] at hfail
      unfold crawlPage at hfail
      cases hw : web u with
      | none => rw [hw] at hu; simp at hu
      | some r => rw [hw] at hfail; simp at hfail
    have hcnt : (trace ++ [t]).count u = trace.count u := by
      rw [List.count_append]
      have : List.count u [t] = 0 := List.count_eq_zero.mpr (by simp [Ne.symm htu])
      omega
    rw [hcnt] at ih
    exact ih
  | case4 visited pages trace hlt t ts hvis page hpage ih =>
    rw [crawlLoop]
    simp only [dif_pos hlt, hvis, Bool.false_eq_true, if_false, hpage]
    by_cases htu : t = u
    · subst htu
      have hvt : t ∈ visited ++ [t] := by simp
      have h1 := ih.1 hvt
      have hcnt : (trace ++ [t]).count t = trace.count t + 1 := by
        simp [List.count_append]
      constructor
      · intro hmem
        exact absurd (List.elem_eq_true_of_mem hmem) hvis
      · rw [h1, hcnt]
        have : t ∉ visited := fun hm => hvis (List.elem_eq_true_of_mem hm)
        simp [this]
    · have hcnt : (trace ++ [t]).count u = trace.count u := by
        rw [List.count_append]
        have : List.count u [t] = 0 := List.count_eq_zero.mpr (by simp [Ne.symm htu])
        omega
      constructor
      · intro hmem
        have : u ∈ visited ++ [t] := List.mem_append_left _ hmem
        rw [ih.1 this, hcnt]
      · by_cases hmem : u ∈ visited
        · rw [ih.1 (List.mem_append_left _ hmem), hcnt]
          simp [hmem]
        · have hm2 : u ∉ visited ++ [t] := by
            simp only [List.mem_append, List.mem_singleton]
            rintro (h | h)
            · exact hmem h
            · exact htu h.symm
          have := ih.2
          rw [hcnt, if_neg hm2] at this
          rw [if_neg hmem]
          exact this
  | case5 toVisit visited pages trace hge =>
    rw [crawlLoop.eq_def]
    simp only [dif_neg hge]
    exact ⟨fun _ => trivial, Nat.le_add_right _ _⟩

/-- Amended C2: during a single `crawlWebsite` run every URL whose fetch
succeeds is passed to `crawlPage` at most once; only a URL whose fetch
fails can be fetched again when rediscovered, since `visited` records
successful fetches only. -/
theorem crawlFetches_success_at_most_once (web : Web) (maxPages : Nat)
    (seed u : Str) (hu : (web u).isSome) :
    (crawlFetches web maxPages seed).count u ≤ 1 := by
  have h := (crawlLoop_count_inv web maxPages u hu [seed] [] [] []).2
  simpa [crawlFetches] using h

/-- Witness for the amended C2 at a concrete input: on `retryWeb` the
successfully fetched seed appears at most once in the fetch trace. -/
theorem crawlFetches_success_at_most_once_witness :
    (retryWeb urlA).isSome = true ∧ (crawlFetches retryWeb 5 urlA).count urlA ≤ 1 :=
  ⟨by decide, crawlFetches_success_at_most_once retryWeb 5 urlA urlA (by decide)⟩

/-- Loop invariant behind C9: each iteration pops one frontier element and
only successful fetches (at most `maxPages - pages.length` more of them)
extend the frontier, by at most `L` links each. -/
theorem crawlLoop_fetch_bound (web : Web) (maxPages L : Nat)
    (hL : ∀ u r, web u = some r → (extractLinks r.anchors u).length ≤ L) :
    ∀ (toVisit visited : List Str) (pages : List PageRecord) (trace : List Str),
    (crawlLoop web maxPages toVisit visited pages trace).2.length ≤
      trace.length + toVisit.length + (maxPages - pages.length) * L := by
  intro toVisit visited pages trace
  induction toVisit, visited, pages, trace using crawlLoop.induct web maxPages with
  | case1 visited pages trace hlt =>
    rw [crawlLoop]
    simp only [dif_pos hlt, List.length_nil]
    omega
  | case2 visited pages trace hlt t ts hvis ih =>
    rw [crawlLoop]
    simp only [dif_pos hlt, hvis, if_pos]
    refine ih.trans ?_
    simp only [List.length_cons]
    omega
  | case3 visited pages trace hlt t ts hvis hfail ih =>
    rw [crawlLoop]
    simp only [dif_pos hlt, hvis, Bool.false_eq_true, if_false, hfail]
    refine ih.trans ?_
    simp only [List.length_append, List.length_cons, List.length_nil]
    omega
  | case4 visited pages trace hlt t ts hvis page hpage ih =>
    rw [crawlLoop]
    simp only [dif_pos hlt, hvis, Bool.false_eq_true, if_false, hpage]
    refine ih.trans ?_
    have hfl : (page.links.filter
        (fun l => !(visited ++ [t]).contains l)).length ≤ L := by
      obtain ⟨r, hw, hl⟩ := crawlPage_links hpage
      calc (page.links.filter (fun l => !(visited ++ [t]).contains l)).length
          ≤ page.links.length := List.length_filter_le _ _
        _ ≤ L := by rw [hl]; exact hL t r hw
    have hm : maxPages - pages.length = (maxPages - (pages.length + 1)) + 1 := by
      omega
    simp only [List.length_append, List.length_cons, List.length_nil,
      Nat.add_zero, Nat.zero_add] at ih hfl ⊢
    rw [hm, Nat.succ_mul]
    omega
  | case5 toVisit visited pages trace hge =>
    rw [crawlLoop.eq_def]
    simp only [dif_neg hge]
    omega

/-- C9: the crawl's total work is bounded independently of the size of the
site graph — when every fetched page yields at most `L` same-origin links,
a `crawlWebsite` run performs at most `1 + maxPages * L` fetches before
stopping (the loop itself is a total function, so it also stops when the
frontier empties before the cap is reached). -/
theorem crawlFetches_length_bound (web : Web) (maxPages L : Nat) (seed : Str)
    (hL : ∀ u r, web u = some r → (extractLinks r.anchors u).length ≤ L) :
    (crawlFetches web maxPages seed).length ≤ 1 + maxPages * L ∧
      (crawlWebsite web maxPages seed).length ≤ maxPages := by
  constructor
  · have h := crawlLoop_fetch_bound web maxPages L hL [seed] [] [] []
    simpa [crawlFetches] using h
  · exact (crawlLoop_pages_inv web maxPages [seed] [] [] [] (by simp) (by simp)
      (by simp)).1

/-- Witness for C9 at a concrete input: on a web where every fetch fails,
the crawl performs exactly one fetch and collects no page, within the
bounds. -/
theorem crawlFetches_length_bound_witness :
    (crawlFetches (fun _ => Option.none) 3 urlA).length ≤ 1 + 3 * 0 ∧
      (crawlWebsite (fun _ => Option.none) 3 urlA).length ≤ 3 :=
  crawlFetches_length_bound (fun _ => Option.none) 3 0 urlA
    (fun u r h => by simp at h)

/-- The record the crawl of `retryWeb` produces for the seed page. -/
def pageA : PageRecord :=
  { url := urlA, title := [], description := [], content := [],
    links := [urlAA, urlAAB], wordCount := 0 }

/-- The record the crawl of `retryWeb` produces for page `aa`. -/
def pageAA : PageRecord :=
  { url := urlAA, title := [], description := [], content := [],
    links := [urlAAB], wordCount := 0 }

theorem crawlWebsite_retryWeb : crawlWebsite retryWeb 5 urlA = [pageA, pageAA] := by
  simp [crawlWebsite, crawlLoop, crawlPage, retryWeb, extractLinks, dedupFirst,
    urlA, urlAA, urlAAB, pageA, pageAA, extractContent, collapseWs, trimWs,
    wordCountOf, splitRuns]

/-- Witness for C3 at a concrete input: the seed URL is a prefix of itself,
and the link `aa` found on the crawled seed page of `retryWeb` extends it. -/
theorem crawlWebsite_links_origin_witness :
    urlA <+: urlA ∧ urlA <+: urlAA :=
  ⟨⟨[], by simp⟩,
    crawlWebsite_links_origin retryWeb 5 urlA urlA ⟨[], by simp⟩ pageA
      (by rw [crawlWebsite_retryWeb]; simp) urlAA (by simp [pageA])⟩

/-!
`EnhancedAnalyzer.analyzeKeywordDensity`.  The per-keyword occurrence
count lowers both the keyword and the page content and counts global
regex matches of the keyword text used directly as a pattern; an invalid
pattern makes `new RegExp` throw, which propagates out of the whole
function (modelled by `none`).  Per-page densities are stored by the
source through `toFixed(2)`; the model keeps the exact rational value
(the formatting is presentation only).
-/

/-- JavaScript `String.prototype.toLowerCase` on the ASCII range. -/
def toLowerStr (s : Str) : Str := s.map Char.toLower

/-- One `byPage` entry of the keyword-density report. -/
structure KDPage where
  url : Str
  occurrences : Nat
  density : ℚ
deriving Repr, DecidableEq

/-- The report for one keyword: `overall` density plus the per-page
breakdown. -/
structure KDEntry where
  overall : ℚ
  byPage : List KDPage
deriving Repr, DecidableEq

/-- Occurrence count of a keyword on one page:
`(content.match(new RegExp(keywordLower, 'gi')) || []).length` with
`content = page.content.toLowerCase()`. -/
def kdOccurrences (keyword : Str) (p : PageRecord) : Option Nat :=
  jsMatchCount (toLowerStr keyword) (toLowerStr p.content)

/-- The inner `pages.forEach` of `analyzeKeywordDensity` for one keyword. -/
def kdByPage (keyword : Str) : List PageRecord → Option (List KDPage)
  | [] => some []
  | p :: ps =>
    match kdOccurrences keyword p with
    | none => none
    | some occ =>
      match kdByPage keyword ps with
      | none => none
      | some rest =>
        some ({ url := p.url, occurrences := occ,
                density :=
                  if p.wordCount > 0 then (occ : ℚ) / p.wordCount * 100 else 0 }
          :: rest)

/-- `EnhancedAnalyzer.analyzeKeywordDensity`: for each keyword, the
per-page densities and the aggregate density over summed occurrences and
summed word counts; `none` models the exception thrown on a keyword that
is not a valid regular expression (with at least one page to process). -/
def analyzeKeywordDensity (pages : List PageRecord) :
    List Str → Option (List (Str × KDEntry))
  | [] => some []
  | k :: ks =>
    match kdByPage k pages with
    | none => none
    | some bp =>
      match analyzeKeywordDensity pages ks with
      | none => none
      | some rest =>
        let totalOcc := (bp.map KDPage.occurrences).sum
        let totalWords := (pages.map PageRecord.wordCount).sum
        some ((k,
          { overall :=
              if totalWords > 0 then (totalOcc : ℚ) / totalWords * 100 else 0,
            byPage := bp }) :: rest)

/-- A page whose single word contains the keyword five times. -/
def pageDense : PageRecord :=
  { url := "u".data, title := [], description := [], content := "aaaaa".data,
    links := [], wordCount := 1 }

theorem kdByPage_spec (k : Str) :
    ∀ (pages : List PageRecord) (bp : List KDPage), kdByPage k pages = some bp →
    ∀ pr ∈ bp.zip pages,
      pr.1.url = pr.2.url ∧
      pr.1.density =
        (if pr.2.wordCount > 0 then (pr.1.occurrences : ℚ) / pr.2.wordCount * 100
          else 0) := by
  intro pages
  induction pages with
  | nil => intro bp hbp pr hpr; simp [kdByPage] at hbp; subst hbp; simp at hpr
  | cons p ps ih =>
    intro bp hbp pr hpr
    rw [kdByPage] at hbp
    cases hocc : kdOccurrences k p with
    | none => rw [hocc] at hbp; simp at hbp
    | some occ =>
      rw [hocc] at hbp
      cases hrest : kdByPage k ps with
      | none => rw [hrest] at hbp; simp at hbp
      | some rest =>
        rw [hrest] at hbp
        simp only [Option.some.injEq] at hbp
        subst hbp
        rw [List.zip_cons_cons, List.mem_cons] at hpr
        rcases hpr with hpr | hpr
        · subst hpr; exact ⟨rfl, rfl⟩
        · exact ih rest hrest pr hpr

/-- Amended C4: `analyzeKeywordDensity` reports, for each keyword, per-page
density `(occurrences / wordCount) * 100` (0 when `wordCount` is 0) and an
overall density of summed occurrences over summed word counts times 100;
a keyword with zero occurrences has density exactly 0 and every density is
nonnegative — but densities are not bounded by 100 (see the
counterexample), because substring matches can outnumber words. -/
theorem analyzeKeywordDensity_amended :
    ∀ (pages : List PageRecord) (keywords : List Str)
      (report : List (Str × KDEntry)),
    analyzeKeywordDensity pages keywords = some report →
    ∀ e ∈ report,
      (∀ pr ∈ e.2.byPage.zip pages,
        pr.1.url = pr.2.url ∧
        pr.1.density =
          (if pr.2.wordCount > 0 then (pr.1.occurrences : ℚ) / pr.2.wordCount * 100
            else 0) ∧
        0 ≤ pr.1.density ∧
        (pr.1.occurrences = 0 → pr.1.density = 0)) ∧
      e.2.overall =
        (if (pages.map PageRecord.wordCount).sum > 0 then
          ((e.2.byPage.map KDPage.occurrences).sum : ℚ) /
            (pages.map PageRecord.wordCount).sum * 100 else 0) ∧
      0 ≤ e.2.overall ∧
      ((∀ b ∈ e.2.byPage, b.occurrences = 0) → e.2.overall = 0) := by
  intro pages keywords
  induction keywords with
  | nil =>
    intro report hrep e he
    simp [analyzeKeywordDensity] at hrep
    subst hrep
    simp at he
  | cons kw ks ih =>
    intro report hrep e he
    rw [analyzeKeywordDensity] at hrep
    cases hbp : kdByPage kw pages with
    | none => rw [hbp] at hrep; simp at hrep
    | some bp =>
      rw [hbp] at hrep
      cases hks : analyzeKeywordDensity pages ks with
      | none => rw [hks] at hrep; simp at hrep
      | some rest =>
        rw [hks] at hrep
        simp only [Option.some.injEq] at hrep
        subst hrep
        rw [List.mem_cons] at he
        rcases he with he | he
        · subst he
          refine ⟨?_, rfl, ?_, ?_⟩
          · intro pr hpr
            obtain ⟨hurl, hden⟩ := kdByPage_spec kw pages bp hbp pr hpr
            refine ⟨hurl, hden, ?_, ?_⟩
            · rw [hden]
              split
              · positivity
              · exact le_refl 0
            · intro hz
              rw [hden, hz]
              split <;> simp
          · dsimp only
            split
            · positivity
            · exact le_refl 0
          · intro hz
            dsimp only
            have : (bp.map KDPage.occurrences).sum = 0 := by
              apply List.sum_eq_zero
              intro x hx
              rw [List.mem_map] at hx
              obtain ⟨b, hb, hbx⟩ := hx
              rw [← hbx]
              exact hz b hb
            rw [this]
            split <;> simp
        · exact ih rest hks e he

/-- The keyword-density report for keyword `a` on `pageDense`. -/
def kdEntryDense : KDEntry :=
  { overall := 500,
    byPage := [{ url := "u".data, occurrences := 5, density := 500 }] }

theorem analyzeKD_pageDense_eval :
    analyzeKeywordDensity [pageDense] ["a".data] =
      some [("a".data, kdEntryDense)] := by
  have hlow : toLowerStr "aaaaa".data = "aaaaa".data := by decide
  have hlowk : toLowerStr "a".data = "a".data := by decide
  have hcnt : jsMatchCount "a".data "aaaaa".data = some 5 := by
    simp [jsMatchCount, regexParse, parseAlt, parseSeq, parseAtom, applyQuant,
      regexMeta, matchPref, scanCount]
  simp [analyzeKeywordDensity, kdByPage, kdOccurrences, pageDense, hlow, hlowk,
    hcnt, kdEntryDense]
  norm_num

/-- C4 counterexample: on a crawl-consistent page whose content is the
single word `aaaaa` (word count 1), the keyword `a` gets density 500 —
refuting "every reported density lies in [0, 100]". -/
theorem keywordDensity_exceeds_100_cex :
    analyzeKeywordDensity [pageDense] ["a".data] = some [("a".data, kdEntryDense)] ∧
      kdEntryDense.overall = 500 ∧ ¬ ((500 : ℚ) ≤ 100) :=
  ⟨analyzeKD_pageDense_eval, rfl, by norm_num⟩

/-- Witness for the amended C4 at a concrete input: the nonnegativity of
the overall density reported for keyword `a` on `pageDense`. -/
theorem analyzeKeywordDensity_amended_witness :
    0 ≤ kdEntryDense.overall :=
  (analyzeKeywordDensity_amended [pageDense] ["a".data] _ analyzeKD_pageDense_eval
    _ (List.mem_singleton.mpr rfl)).2.2.1

/-- The regular expression denoted by a pattern with no metacharacters: a
plain sequence of literal characters. -/
def litRE : Str → RE
  | [] => .eps
  | c :: t => .seq (.ch c) (litRE t)

theorem parseAtom_lit (c : Char) (hc : regexMeta c = false) (fuel : Nat)
    (rest : Str) : parseAtom (fuel + 1) (c :: rest) = some (.ch c, rest) := by
  have h1 : c ≠ '(' := by intro he; rw [he] at hc; simp [regexMeta] at hc
  have h2 : c ≠ '.' := by intro he; rw [he] at hc; simp [regexMeta] at hc
  simp [parseAtom, h1, h2, hc]

theorem parseSeq_lit :
    ∀ l : Str, (∀ c ∈ l, regexMeta c = false) →
    ∀ fuel, 2 * l.length + 2 ≤ fuel → parseSeq fuel l = some (litRE l, []) := by
  intro l
  induction l with
  | nil =>
    intro _ fuel hf
    cases fuel with
    | zero => omega
    | succ f =>
      have hat : parseAtom f [] = none := by cases f <;> simp [parseAtom]
      simp [parseSeq, hat, litRE]
  | cons c t ih =>
    intro hl fuel hf
    cases fuel with
    | zero => simp only [List.length_cons] at hf; omega
    | succ f =>
      have hc : regexMeta c = false := hl c (by simp)
      have htl : ∀ x ∈ t, regexMeta x = false := fun x hx => hl x (by simp [hx])
      cases f with
      | zero => simp only [List.length_cons] at hf; omega
      | succ f2 =>
        have hrec := ih htl (f2 + 1)
          (by simp only [List.length_cons] at hf; omega)
        rw [parseSeq, parseAtom_lit c hc f2 t]
        cases t with
        | nil => simp [applyQuant, hrec, litRE]
        | cons d t2 =>
          have hd : regexMeta d = false := htl d (by simp)
          have hd1 : d ≠ '*' := by intro he; rw [he] at hd; simp [regexMeta] at hd
          have hd2 : d ≠ '+' := by intro he; rw [he] at hd; simp [regexMeta] at hd
          have hd3 : d ≠ '?' := by intro he; rw [he] at hd; simp [regexMeta] at hd
          simp [applyQuant, hd1, hd2, hd3, hrec, litRE]

theorem regexParse_lit (l : Str) (hl : ∀ c ∈ l, regexMeta c = false) :
    regexParse l = some (litRE l) := by
  have hbar : ∀ x ∈ l, x ≠ '|' := by
    intro x hx he
    have := hl x hx
    rw [he] at this
    simp [regexMeta] at this
  unfold regexParse
  have h3 : 3 * l.length + 3 = (3 * l.length + 2) + 1 := by omega
  rw [h3, parseAlt]
  rw [parseSeq_lit l hl (3 * l.length + 2) (by omega)]

theorem matchPref_lit (pat : Str) :
    ∀ s, matchPref (litRE pat) s = if pat.isPrefixOf s then [pat.length] else [] := by
  induction pat with
  | nil => intro s; simp [litRE, matchPref, List.isPrefixOf]
  | cons c t ih =>
    intro s
    cases s with
    | nil => simp [litRE, matchPref, List.isPrefixOf]
    | cons d s2 =>
      by_cases hp : t.isPrefixOf s2
      case pos =>
        by_cases hdc : d = c
        case pos =>
          subst hdc
          have hp2 : t <+: s2 := List.isPrefixOf_iff_prefix.mp hp
          simp [litRE, matchPref, ih, hp, hp2, List.isPrefixOf, Nat.add_comm]
        case neg =>
          simp [litRE, matchPref, List.isPrefixOf, Ne.symm hdc, hdc]
      case neg =>
        by_cases hdc : d = c
        case pos =>
          subst hdc
          have hp2 : ¬ t <+: s2 := fun h => hp ( List.isPrefixOf_iff_prefix.mpr h)
          simp [litRE, matchPref, ih, hp, hp2, List.isPrefixOf]
        case neg =>
          simp [litRE, matchPref, List.isPrefixOf, Ne.symm hdc, hdc]

theorem scanCount_eps : ∀ s : Str, scanCount .eps s = s.length + 1 := by
  intro s
  induction s with
  | nil => rw [scanCount]; simp [matchPref]
  | cons c rest ih => rw [scanCount]; simp [matchPref, ih]; omega

theorem scanCount_lit : ∀ pat s : Str, scanCount (litRE pat) s = countMatches pat s := by
  intro pat s
  induction pat, s using countMatches.induct with
  | case1 s =>
    rw [countMatches.eq_def]
    exact scanCount_eps s
  | case2 p ps =>
    rw [countMatches.eq_def, scanCount]
    rw [matchPref_lit]
    simp [List.isPrefixOf]
  | case3 p ps c rest hpre ih =>
    rw [scanCount, countMatches.eq_def]
    rw [matchPref_lit, if_pos hpre]
    simp only [List.head?, List.length_cons, hpre, if_pos]
    rw [ih]
  | case4 p ps c rest hpre ih =>
    rw [scanCount, countMatches.eq_def]
    rw [matchPref_lit, if_neg hpre]
    simp only [List.head?]
    rw [ih]
    simp [hpre]

/-- C10: a keyword free of regex metacharacters counts exactly its literal
(non-overlapping, case-insensitive) substring occurrences, because the
keyword is compiled directly as a regex pattern — while keywords that are
not valid patterns, such as `c++` or `(`, make `analyzeKeywordDensity`
throw instead of returning a density report. -/
theorem keywordDensity_regex_compilation :
    (∀ pat s : Str, (∀ c ∈ pat, regexMeta c = false) →
        jsMatchCount pat s = some (countMatches pat s)) ∧
      analyzeKeywordDensity [pageDense] ["c++".data] = none ∧
      analyzeKeywordDensity [pageDense] ["(".data] = none := by
  refine ⟨?_, ?_, ?_⟩
  · intro pat s hl
    unfold jsMatchCount
    rw [regexParse_lit pat hl]
    simp [scanCount_lit]
  · have hpp : regexParse "c++".data = none := by
      simp [regexParse, parseAlt, parseSeq, parseAtom, applyQuant, regexMeta]
    have hlow : toLowerStr "c++".data = "c++".data := by decide
    simp [analyzeKeywordDensity, kdByPage, kdOccurrences, jsMatchCount, hpp, hlow]
  · have hpp : regexParse "(".data = none := by
      simp [regexParse, parseAlt, parseSeq, parseAtom, applyQuant, regexMeta]
    have hlow : toLowerStr "(".data = "(".data := by decide
    simp [analyzeKeywordDensity, kdByPage, kdOccurrences, jsMatchCount, hpp, hlow]

/-- Witness for C10 at a concrete input: the metacharacter-free keyword
`ab` is counted literally in `xabab`. -/
theorem keywordDensity_regex_compilation_witness :
    jsMatchCount "ab".data "xabab".data = some (countMatches "ab".data "xabab".data) :=
  keywordDensity_regex_compilation.1 "ab".data "xabab".data (by decide)

/-!
`calculateFleschKincaid` and its syllable helpers (src/unnamed/part_002,
`utils/readability.js`).
-/

/-- The sentence-break class `[.!?]`. -/
def isSentBreak (c : Char) : Bool := c ∈ ['.', '!', '?']

/-- The character class `[laeiouy]` used by the suffix-stripping regex. -/
def laeiouy (c : Char) : Bool := c ∈ ['l', 'a', 'e', 'i', 'o', 'u', 'y']

/-- The vowel class `[aeiouy]`. -/
def isVowelY (c : Char) : Bool := c ∈ ['a', 'e', 'i', 'o', 'u', 'y']

/-- Helper for `stripSuffixFK` on the reversed word: the `ed` and
`[^laeiouy]e` alternatives of the suffix regex. -/
def stripRevAfter (rw : Str) : Str :=
  match rw with
  | 'd' :: 'e' :: t => t
  | 'e' :: x :: t => if laeiouy x then 'e' :: x :: t else t
  | _ => rw

/-- Helper on the reversed word: the `[^laeiouy]es` alternative first (it
matches at the earlier position), then the two-character alternatives. -/
def stripRevFK (rw : Str) : Str :=
  match rw with
  | 's' :: 'e' :: x :: t => if laeiouy x then stripRevAfter rw else t
  | _ => stripRevAfter rw

/-- `word.replace(/(?:[^laeiouy]es|ed|[^laeiouy]e)$/, '')`. -/
def stripSuffixFK (w : Str) : Str := (stripRevFK w.reverse).reverse

/-- Number of matches of `/[aeiouy]{1,2}/g`: greedy non-overlapping groups
of one or two consecutive vowels. -/
def vowelGroups : Str → Nat
  | [] => 0
  | [c] => if isVowelY c then 1 else 0
  | c :: d :: rest =>
    if isVowelY c then
      if isVowelY d then 1 + vowelGroups rest
      else 1 + vowelGroups (d :: rest)
    else vowelGroups (d :: rest)
termination_by s => s.length
decreasing_by
  all_goals simp only [List.length_cons]
  all_goals omega

/-- `countSyllablesInWord`: words of at most three characters (including
the empty token a leading whitespace produces) count one syllable;
otherwise strip the suffix, strip a leading `y`, and count vowel groups,
defaulting to 1 when none remain. -/
def countSyllablesInWord (w : Str) : Nat :=
  let wl := toLowerStr w
  if wl.length ≤ 3 then 1
  else
    let w2 := stripSuffixFK wl
    let w3 := match w2 with
      | 'y' :: t => t
      | t => t
    let n := vowelGroups w3
    if n = 0 then 1 else n

/-- `countSyllables`: sum the per-word counts over `text.split(/\s+/)`
without discarding empty tokens (the empty string itself counts 0). -/
def countSyllables (text : Str) : Nat :=
  let t := toLowerStr text
  if t.length = 0 then 0
  else ((splitRuns Char.isWhitespace t).map countSyllablesInWord).sum

/-- `calculateFleschKincaid`: grade level from sentence, word and syllable
counts, 0 when there are no sentences or no words, rounded to two decimal
places. -/
def calculateFleschKincaid (text : Str) : ℚ :=
  let sentences := ((splitRuns isSentBreak text).filter (fun s => s ≠ [])).length
  let words := ((splitRuns Char.isWhitespace text).filter (fun w => w ≠ [])).length
  let syllables := countSyllables text
  if sentences = 0 ∨ words = 0 then 0
  else
    jsRound2 ((39 : ℚ) / 100 * ((words : ℚ) / sentences) +
      (118 : ℚ) / 10 * ((syllables : ℚ) / words) - (1559 : ℚ) / 100)

/-- Number of maximal runs of `aeiouy` characters. -/
def fullVowelRuns : Str → Nat
  | [] => 0
  | c :: rest =>
    if isVowelY c then 1 + fullVowelRuns (rest.dropWhile isVowelY)
    else fullVowelRuns rest
termination_by s => s.length
decreasing_by
  · simp only [List.length_cons]
    have := (List.dropWhile_sublist (l := rest) isVowelY).length_le
    omega
  · simp

/-- Syllable count of one word as the specification's wording describes
it: words of length at most 3 count one syllable; otherwise strip the
silent suffix and a leading `y` and count maximal runs of `aeiouy`
characters (each full run once). -/
def specWordSyllables (w : Str) : Nat :=
  let wl := toLowerStr w
  if wl.length ≤ 3 then 1
  else
    let w2 := stripSuffixFK wl
    let w3 := match w2 with
      | 'y' :: t => t
      | t => t
    let n := fullVowelRuns w3
    if n = 0 then 1 else n

/-- Modelled from the claim's wording (C5): the documented formula with
sentences = the fragments of splitting on runs of `.!?` after discarding
empty or whitespace-only fragments, words = whitespace-separated
non-empty tokens, and syllables summed over those words with full vowel
runs counted once each. -/
def fleschKincaidClaimed (text : Str) : ℚ :=
  let sentences :=
    ((splitRuns isSentBreak text).filter (fun s => trimWs s ≠ [])).length
  let wordList := (splitRuns Char.isWhitespace text).filter (fun w => w ≠ [])
  let words := wordList.length
  let syllables := (wordList.map specWordSyllables).sum
  if sentences = 0 ∨ words = 0 then 0
  else
    jsRound2 ((39 : ℚ) / 100 * ((words : ℚ) / sentences) +
      (118 : ℚ) / 10 * ((syllables : ℚ) / words) - (1559 : ℚ) / 100)

/-- C5 counterexample: on `"a. ."` the split on `.!?` leaves the
whitespace-only fragment `" "`, which `filter(Boolean)` keeps, so the code
counts 2 sentences and yields -3.4, while the claimed rule (discarding
whitespace-only fragments) counts 1 sentence and yields -3.01. -/
theorem fleschKincaid_whitespace_fragment_cex :
    calculateFleschKincaid "a. .".data = -17 / 5 ∧
      fleschKincaidClaimed "a. .".data = -301 / 100 ∧
      calculateFleschKincaid "a. .".data ≠ fleschKincaidClaimed "a. .".data := by
  have h1 : splitRuns isSentBreak "a. .".data = ["a".data, " ".data, "".data] := by
    simp [splitRuns, isSentBreak]
  have h2 : splitRuns Char.isWhitespace "a. .".data = ["a.".data, ".".data] := by
    simp [splitRuns]
  have h3 : toLowerStr "a. .".data = "a. .".data := by decide
  have hc : calculateFleschKincaid "a. .".data = -17 / 5 := by
    simp [calculateFleschKincaid, countSyllables, h1, h2, h3,
      countSyllablesInWord, toLowerStr, stripSuffixFK, stripRevFK,
      stripRevAfter, vowelGroups, jsRound2]
    norm_num
  have hs : fleschKincaidClaimed "a. .".data = -301 / 100 := by
    simp [fleschKincaidClaimed, h1, h2, specWordSyllables, toLowerStr,
      stripSuffixFK, stripRevFK, stripRevAfter, fullVowelRuns, trimWs,
      jsRound2]
    norm_num
  refine ⟨hc, hs, ?_⟩
  rw [hc, hs]
  norm_num

/-- Sentence count of `calculateFleschKincaid`: fragments of the split on
runs of `.!?`, discarding only empty fragments (whitespace-only fragments
count). -/
def sentenceCount (text : Str) : Nat :=
  (splitRuns isSentBreak text).countP (fun s => s ≠ [])

/-- The documented Flesch–Kincaid grade-level formula with its degenerate
case and two-decimal rounding. -/
def fkFormula (sentences words syllables : Nat) : ℚ :=
  if sentences = 0 ∨ words = 0 then 0
  else
    jsRound2 ((39 : ℚ) / 100 * ((words : ℚ) / sentences) +
      (118 : ℚ) / 10 * ((syllables : ℚ) / words) - (1559 : ℚ) / 100)

/-- Amended C5: `calculateFleschKincaid` is a deterministic function of
its input equal to `0.39 * (words/sentences) + 11.8 * (syllables/words) -
15.59` rounded to two decimals, with sentences = fragments of splitting on
runs of `.!?` discarding only empty fragments, words = non-empty
whitespace-separated tokens, and syllables = `countSyllables`, which sums
over all whitespace-split tokens (empty tokens and tokens of length at
most 3 count one syllable; longer tokens strip a silent suffix and a
leading `y`, then count greedy groups of one or two consecutive `aeiouy`
characters, defaulting to 1); the result is 0 when sentences or words is
0. -/
theorem calculateFleschKincaid_amended :
    ∀ text : Str,
      calculateFleschKincaid text =
        fkFormula (sentenceCount text) (wordCountOf text) (countSyllables text) ∧
      ((sentenceCount text = 0 ∨ wordCountOf text = 0) →
        calculateFleschKincaid text = 0) := by
  intro text
  have heq : calculateFleschKincaid text =
      fkFormula (sentenceCount text) (wordCountOf text) (countSyllables text) := by
    unfold calculateFleschKincaid fkFormula sentenceCount wordCountOf
    rw [List.countP_eq_length_filter]
  refine ⟨heq, ?_⟩
  intro hz
  rw [heq]
  unfold fkFormula
  rw [if_pos hz]

/-- Witness for the amended C5 at a concrete input: a text with no
sentence fragment yields the sentinel 0. -/
theorem calculateFleschKincaid_amended_witness :
    calculateFleschKincaid ".".data = 0 :=
  (calculateFleschKincaid_amended ".".data).2
    (Or.inl (by simp [sentenceCount, splitRuns, isSentBreak]))

/-!
`EnhancedAnalyzer.analyzeMetaTags` and its suggestion helpers.  JavaScript
object key enumeration in `extractKeyPhrases` lists array-index-like keys
first in ascending numeric order, then the remaining keys in insertion
order; both orders are modelled, and `Array.prototype.sort` is stable.
-/

/-- Which field a meta-tag suggestion replaces. -/
inductive SugType : Type
  | title : SugType
  | description : SugType
deriving Repr, DecidableEq

/-- One element of the `title`/`description` arrays of the report. -/
structure MetaEntry where
  url : Str
  text : Str
  len : Nat
  valid : Bool
deriving Repr, DecidableEq

/-- One element of the `suggestions` array. -/
structure MetaSuggestion where
  url : Str
  sugType : SugType
  current : Str
  suggested : Str
deriving Repr, DecidableEq

/-- The value `analyzeMetaTags` returns. -/
structure MetaTagsReport where
  title : List MetaEntry
  description : List MetaEntry
  issues : List Str
  suggestions : List MetaSuggestion
deriving Repr, DecidableEq

/-- The stop list of `extractKeyPhrases`. -/
def stopWords : List Str :=
  ["this".data, "that".data, "with".data, "have".data, "will".data,
    "construction".data, "environmental".data]

/-- Numeric value of a digit string. -/
def digitsToNat (s : Str) : Nat :=
  s.foldl (fun acc c => acc * 10 + (c.toNat - 48)) 0

/-- Whether a string is a canonical array index (JavaScript object keys of
this shape enumerate first, in ascending numeric order). -/
def isArrayIndexStr (s : Str) : Bool :=
  s ≠ [] ∧ s.all Char.isDigit ∧ (s = ['0'] ∨ s.head? ≠ some '0') ∧
    digitsToNat s < 4294967295

/-- Increment the count of `w` in an insertion-ordered association list. -/
def bumpWord (w : Str) : List (Str × Nat) → List (Str × Nat)
  | [] => [(w, 1)]
  | (k, v) :: t => if k = w then (k, v + 1) :: t else (k, v) :: bumpWord w t

/-- The `wordFreq` object: counts of the lower-cased words longer than 3
characters that are not stop words, in insertion order. -/
def wordFreq (content : Str) : List (Str × Nat) :=
  (splitRuns Char.isWhitespace (toLowerStr content)).foldl
    (fun acc w =>
      if w.length > 3 ∧ ¬ stopWords.contains w then bumpWord w acc else acc) []

/-- Insert into a list sorted by descending count, after equal counts
(stability). -/
def insertByFreq (x : Str × Nat) : List (Str × Nat) → List (Str × Nat)
  | [] => [x]
  | y :: t => if y.2 ≥ x.2 then y :: insertByFreq x t else x :: y :: t

/-- Stable sort by descending count (`.sort(([,a],[,b]) => b - a)`). -/
def sortByFreq (l : List (Str × Nat)) : List (Str × Nat) :=
  l.foldl (fun acc x => insertByFreq x acc) []

/-- Insert into a list sorted by ascending numeric key value. -/
def insertByNum (x : Str × Nat) : List (Str × Nat) → List (Str × Nat)
  | [] => [x]
  | y :: t =>
    if digitsToNat y.1 ≤ digitsToNat x.1 then y :: insertByNum x t else x :: y :: t

/-- `Object.entries` enumeration order: array-index-like keys first in
ascending numeric order, then the rest in insertion order. -/
def entriesJS (freq : List (Str × Nat)) : List (Str × Nat) :=
  (freq.filter (fun e => isArrayIndexStr e.1)).foldl
      (fun acc x => insertByNum x acc) [] ++
    freq.filter (fun e => ¬ isArrayIndexStr e.1)

/-- `EnhancedAnalyzer.extractKeyPhrases`: the five most frequent words. -/
def extractKeyPhrases (content : Str) : List Str :=
  ((sortByFreq (entriesJS (wordFreq content))).take 5).map Prod.fst

/-- `Array.prototype.join` with a separator. -/
def joinSep (sep : Str) : List Str → Str
  | [] => []
  | [x] => x
  | x :: y :: t => x ++ sep ++ joinSep sep (y :: t)

/-- `EnhancedAnalyzer.optimizeTitle` (the current title is unused by the
source as well). -/
def optimizeTitle (_currentTitle content : Str) : Str :=
  let optimized := joinSep " | ".data ((extractKeyPhrases content).take 2)
  optimized.take 57 ++ (if optimized.length > 57 then "...".data else [])

/-- `EnhancedAnalyzer.optimizeDescription`: first fragment of the split on
`'.'` whose trimmed length exceeds 20, else the first 150 characters,
truncated to 152 plus an ellipsis when longer. -/
def optimizeDescription (content : Str) : Str :=
  let sentences := (splitChar '.' content).filter (fun s => (trimWs s).length > 20)
  let description :=
    match sentences with
    | [] => content.take 150
    | s :: _ => s
  description.take 152 ++ (if description.length > 152 then "...".data else [])

/-- `EnhancedAnalyzer.analyzeMetaTags`: per-page entries, issue strings and
auto-generated suggestions, in page order. -/
def analyzeMetaTags (pages : List PageRecord) : MetaTagsReport :=
  { title := pages.map (fun p =>
      { url := p.url, text := p.title, len := p.title.length,
        valid := decide (p.title.length > 0 ∧ p.title.length ≤ 60) })
    description := pages.map (fun p =>
      { url := p.url, text := p.description, len := p.description.length,
        valid := decide (p.description.length > 0 ∧ p.description.length ≤ 155) })
    issues := pages.flatMap (fun p =>
      (if p.title.length = 0 then [p.url ++ ": Missing title".data] else []) ++
      (if p.title.length > 60 then [p.url ++ ": Title too long".data] else []) ++
      (if p.description.length = 0 then [p.url ++ ": Missing description".data]
        else []) ++
      (if p.description.length > 155 then [p.url ++ ": Description too long".data]
        else []))
    suggestions := pages.flatMap (fun p =>
      (if p.title.length > 60 then
        [{ url := p.url, sugType := .title, current := p.title,
           suggested := optimizeTitle p.title p.content }]
        else []) ++
      (if p.description.length > 155 ∨ p.description.length = 0 then
        [{ url := p.url, sugType := .description, current := p.description,
           suggested := optimizeDescription p.content }]
        else [])) }

/-- C6: a 60-character title and a 155-character description are within
bounds — `analyzeMetaTags` emits the "too long" issue for a page exactly
when the title exceeds 60 characters, resp. the description exceeds 155,
so 61 resp. 156 characters produce the issue and the exact bounds do
not. -/
theorem analyzeMetaTags_length_boundaries :
    ∀ p : PageRecord,
      ((p.url ++ ": Title too long".data) ∈ (analyzeMetaTags [p]).issues ↔
        60 < p.title.length) ∧
      ((p.url ++ ": Description too long".data) ∈ (analyzeMetaTags [p]).issues ↔
        155 < p.description.length) := by
  intro p
  have hinj : ∀ x y : Str, (p.url ++ x = p.url ++ y) ↔ x = y :=
    fun x y => List.append_right_inj p.url
  have d1 : ": Title too long".data ≠ ": Missing title".data := by decide
  have d2 : ": Title too long".data ≠ ": Missing description".data := by decide
  have d3 : ": Title too long".data ≠ ": Description too long".data := by decide
  have d4 : ": Description too long".data ≠ ": Missing title".data := by decide
  have d5 : ": Description too long".data ≠ ": Missing description".data := by decide
  have d6 : ": Description too long".data ≠ ": Title too long".data := by decide
  simp only [analyzeMetaTags, List.flatMap_cons, List.flatMap_nil, List.append_nil]
  by_cases h1 : p.title.length = 0 <;> by_cases h2 : 60 < p.title.length <;>
    by_cases h3 : p.description.length = 0 <;>
    by_cases h4 : 155 < p.description.length <;>
    simp [h1, h2, h3, h4, hinj, d1, d2, d3, d4, d5, d6]

/-- Amended C7: a title longer than 60 characters, or a description
outside (0, 155] characters, makes `analyzeMetaTags` emit both an issue
entry and an auto-generated replacement suggestion for that field; an
empty title, however, emits only the "Missing title" issue and no title
suggestion, because the title suggestion is generated only when the length
exceeds 60. -/
theorem analyzeMetaTags_suggestions_amended :
    ∀ p : PageRecord,
      ((∃ s ∈ (analyzeMetaTags [p]).suggestions, s.sugType = SugType.title) ↔
        60 < p.title.length) ∧
      ((∃ s ∈ (analyzeMetaTags [p]).suggestions, s.sugType = SugType.description) ↔
        (155 < p.description.length ∨ p.description.length = 0)) ∧
      ((p.url ++ ": Missing title".data) ∈ (analyzeMetaTags [p]).issues ↔
        p.title.length = 0) ∧
      ((p.url ++ ": Missing description".data) ∈ (analyzeMetaTags [p]).issues ↔
        p.description.length = 0) := by
  intro p
  have hinj : ∀ x y : Str, (p.url ++ x = p.url ++ y) ↔ x = y :=
    fun x y => List.append_right_inj p.url
  have d1 : ": Missing title".data ≠ ": Title too long".data := by decide
  have d2 : ": Missing title".data ≠ ": Missing description".data := by decide
  have d3 : ": Missing title".data ≠ ": Description too long".data := by decide
  have d4 : ": Missing description".data ≠ ": Missing title".data := by decide
  have d5 : ": Missing description".data ≠ ": Title too long".data := by decide
  have d6 : ": Missing description".data ≠ ": Description too long".data := by decide
  simp only [analyzeMetaTags, List.flatMap_cons, List.flatMap_nil, List.append_nil]
  by_cases h1 : p.title.length = 0 <;> by_cases h2 : 60 < p.title.length <;>
    by_cases h3 : p.description.length = 0 <;>
    by_cases h4 : 155 < p.description.length <;>
    simp [h1, h2, h3, h4, hinj, d1, d2, d3, d4, d5, d6]

/-- A concrete page with an empty title and a valid short description. -/
def pageNoTitle : PageRecord :=
  { url := "u".data, title := [], description := "d".data,
    content := "hello world".data, links := [], wordCount := 2 }

/-- C7 counterexample: a page whose title length 0 is outside (0, 60] gets
the "Missing title" issue but no replacement suggestion at all — refuting
"a title outside (0, 60] triggers both an issue and a suggestion". -/
theorem metaTags_empty_title_no_suggestion_cex :
    pageNoTitle.title.length = 0 ∧
      (analyzeMetaTags [pageNoTitle]).issues =
        [pageNoTitle.url ++ ": Missing title".data] ∧
      (analyzeMetaTags [pageNoTitle]).suggestions = [] := by
  refine ⟨rfl, ?_, ?_⟩ <;> simp [analyzeMetaTags, pageNoTitle]

/-!
`EnhancedAnalyzer.analyzeWebsite` (composed with the request validation it
sits behind).  Of the `analyzePages` components, the technical-SEO,
content-quality and structured-data summaries are total computations that
cannot throw, and `generateAiInsights` catches its own errors and returns
an error marker instead of throwing; the only exception reachable from
`analyzeWebsite` in this model is the keyword-regex `SyntaxError` inside
`analyzeKeywordDensity`, so the result is `none` exactly when that
throws.  Note that `crawlWebsite` catches every per-URL fetch failure —
including the seed's — inside its loop.
-/

/-- The analysis response, restricted to the fields the claims consult. -/
structure AnalyzeResult where
  url : Str
  keywords : List Str
  pagesAnalyzed : Nat
  metaTags : MetaTagsReport
  keywordDensity : List (Str × KDEntry)
deriving Repr, DecidableEq

/-- `EnhancedAnalyzer.analyzeWebsite`: crawl, then analyze; `none` models
the rethrown exception that the route turns into a 500 response. -/
def analyzeWebsite (web : Web) (maxPages : Nat) (url : Str)
    (keywords : List Str) : Option AnalyzeResult :=
  let pages := crawlWebsite web maxPages url
  match analyzeKeywordDensity pages keywords with
  | none => none
  | some kd =>
    some { url := url, keywords := keywords, pagesAnalyzed := pages.length,
           metaTags := analyzeMetaTags pages, keywordDensity := kd }

/-- A web on which every fetch fails. -/
def failWeb : Web := fun _ => none

/-- C8 counterexample: when the seed URL cannot be fetched at all, the
analysis does not abort with an error — it completes normally with
`pagesAnalyzed = 0`, because `crawlWebsite` catches the seed's fetch
failure like any other URL's. -/
theorem seed_failure_no_abort_cex :
    (analyzeWebsite failWeb 5 urlA ["k".data]).isSome = true ∧
      (analyzeWebsite failWeb 5 urlA ["k".data]).map AnalyzeResult.pagesAnalyzed =
        some 0 := by
  have hcrawl : crawlWebsite failWeb 5 urlA = [] := by
    simp [crawlWebsite, crawlLoop, crawlPage, failWeb]
  constructor <;>
    simp [analyzeWebsite, hcrawl, analyzeKeywordDensity, kdByPage]

/-- Amended C8: a fetch failure is skipped wherever it occurs.  With no
keywords the analysis always returns a response, whatever fetches fail;
and when the seed itself cannot be fetched the crawl returns no pages and
the analysis still completes normally, reporting zero pages analyzed,
rather than aborting with a request-level error. -/
theorem analyzeWebsite_failure_handling_amended :
    ∀ (web : Web) (maxPages : Nat) (seed : Str) (keywords : List Str),
      (analyzeWebsite web maxPages seed []).isSome = true ∧
      (web seed = none →
        crawlWebsite web maxPages seed = [] ∧
        (analyzeWebsite web maxPages seed keywords).map AnalyzeResult.pagesAnalyzed =
          some 0) := by
  intro web maxPages seed keywords
  have hkdEmpty : ∀ ks : List Str,
      analyzeKeywordDensity ([] : List PageRecord) ks =
        some (ks.map (fun k => (k, { overall := 0, byPage := [] }))) := by
    intro ks
    induction ks with
    | nil => simp [analyzeKeywordDensity]
    | cons k t ih => simp [analyzeKeywordDensity, kdByPage, ih]
  constructor
  · unfold analyzeWebsite
    cases hkd : analyzeKeywordDensity (crawlWebsite web maxPages seed) [] with
    | none => simp [analyzeKeywordDensity] at hkd
    | some kd => simp [hkd]
  · intro hseed
    have hcp : crawlPage web seed = none := by simp [crawlPage, hseed]
    have hcrawl : crawlWebsite web maxPages seed = [] := by
      unfold crawlWebsite
      by_cases hm : 0 < maxPages
      · rw [crawlLoop]
        simp only [List.length_nil]
        rw [dif_pos hm]
        simp only [hcp]
        have hfix : (crawlLoop web maxPages [] [] [] [seed]).1 = [] := by
          rw [crawlLoop]
          simp only [List.length_nil]
          rw [dif_pos hm]
        simpa using hfix
      · rw [crawlLoop.eq_def]
        have hm2 : ¬ (List.length ([] : List PageRecord) < maxPages) := by
          simpa using hm
        rw [dif_neg hm2]
    refine ⟨hcrawl, ?_⟩
    unfold analyzeWebsite
    simp [hcrawl, hkdEmpty]

/-- Witness for the amended C8 at a concrete input: on a web where every
fetch fails, the analysis of seed `a` reports zero pages without
erroring. -/
theorem analyzeWebsite_failure_handling_amended_witness :
    failWeb urlA = none ∧
      crawlWebsite failWeb 3 urlA = [] ∧
      (analyzeWebsite failWeb 3 urlA ["k".data]).map AnalyzeResult.pagesAnalyzed =
        some 0 :=
  ⟨rfl, (analyzeWebsite_failure_handling_amended failWeb 3 urlA ["k".data]).2 rfl⟩
